import Mathlib

/-!
Verification of the RAG subsystem of the speckit book-agent backend.

Texts are modelled as `List Char`; Python `str` operations (slicing,
`rfind` over a range, `strip`, `startswith`) are embedded as executable
functions on character lists.  Python floats are modelled as real numbers
where arithmetic is involved.  External collaborators (the ChromaDB vector
store, the Gemini client, the langchain splitter, the `re` module) are
passed in as explicit function or data parameters, mirroring the call
sites in the repository's own modules.
-/

/-- Whitespace predicate matching Python's `str.strip` on the ASCII
whitespace characters that occur in this code base. -/
def isWS (c : Char) : Bool :=
  c = ' ' || c = '\t' || c = '\n' || c = '\r' || c = '\x0b' || c = '\x0c'

/-- Python `s.strip()`: remove leading and trailing whitespace. -/
def pyStrip (l : List Char) : List Char :=
  ((l.dropWhile isWS).reverse.dropWhile isWS).reverse

/-- Python slice `text[a:b]` for `a ≤ b` (clamps at the end of the list,
as Python slicing does). -/
def pySlice (text : List Char) (a b : Nat) : List Char :=
  (text.drop a).take (b - a)

/-- The characters of `text` at positions `i, i+1, ...` start with `sep`
(and `sep` fits inside `text`). -/
def matchesAt (text sep : List Char) (i : Nat) : Bool :=
  decide ((text.drop i).take sep.length = sep)

/-- Scan positions `lo + d, lo + d - 1, ..., lo` for the highest match of
`sep`; helper for `pyRfind`. -/
def rfindFrom (text sep : List Char) (lo : Nat) : Nat → Option Nat
  | 0 => if matchesAt text sep lo then some lo else none
  | d + 1 =>
    if matchesAt text sep (lo + d + 1) then some (lo + d + 1)
    else rfindFrom text sep lo d

/-- Python `text.rfind(sep, lo, hi)`: the highest index `i` with
`lo ≤ i`, `i + sep.length ≤ hi` and `sep` occurring at `i`; `none` when
there is no occurrence (Python returns `-1`). -/
def pyRfind (text sep : List Char) (lo hi : Nat) : Option Nat :=
  if lo + sep.length ≤ hi then rfindFrom text sep lo (hi - sep.length - lo)
  else none

/-- The separator priority list of `DocumentProcessor._split_text`. -/
def sentenceSeps : List (List Char) :=
  [['.', '\n'], ['.', ' '], ['!', ' '], ['?', ' '], ['\n', '\n'], ['\n']]

/-- First separator (in priority order) found in `[lo, hi)`; returns the
position one past its last occurrence (`last_sep + len(sep)`). -/
def findSentenceEnd (text : List Char) (lo hi : Nat) : List (List Char) → Option Nat
  | [] => none
  | sep :: rest =>
    match pyRfind text sep lo hi with
    | some i => some (i + sep.length)
    | none => findSentenceEnd text lo hi rest

/-- One iteration of the `_split_text` loop body: the cut point `end`
chosen for the window starting at `start` (the window is
`start + chunk_size`; the backward separator search runs over
`[window - overlap, window)`). -/
def chunkEnd (text : List Char) (chunk_size overlap start : Nat) : Nat :=
  if start + chunk_size < text.length then
    match findSentenceEnd text (start + chunk_size - overlap) (start + chunk_size) sentenceSeps with
    | some se =>
      if start + chunk_size - overlap < se then se
      else min (start + chunk_size) text.length
    | none => min (start + chunk_size) text.length
  else start + chunk_size

/-- The update `start = end; if overlap > 0 and start > overlap:
start = start - overlap` at the bottom of the `_split_text` loop. -/
def nextStart (overlap e : Nat) : Nat :=
  if 0 < overlap ∧ overlap < e then e - overlap else e

/-- The `_split_text` while-loop, emitting the stripped, non-empty chunks
exactly as the Python loop appends them.  `fuel` bounds the number of
iterations; `split_text` supplies `text.length`, which suffices whenever
the loop terminates with strictly increasing `start` (proved below under
`2 * overlap ≤ chunk_size`). -/
def splitChunksLoop (text : List Char) (cs ov : Nat) : Nat → Nat → List (List Char)
  | 0, _ => []
  | fuel + 1, start =>
    if start < text.length then
      if pyStrip (pySlice text start (chunkEnd text cs ov start)) = [] then
        splitChunksLoop text cs ov fuel (nextStart ov (chunkEnd text cs ov start))
      else
        pyStrip (pySlice text start (chunkEnd text cs ov start)) ::
          splitChunksLoop text cs ov fuel (nextStart ov (chunkEnd text cs ov start))
    else []

/-- The same loop, recording the `(start, end)` window of every iteration
instead of the stripped chunk text. -/
def splitSegsLoop (text : List Char) (cs ov : Nat) : Nat → Nat → List (Nat × Nat)
  | 0, _ => []
  | fuel + 1, start =>
    if start < text.length then
      (start, chunkEnd text cs ov start) ::
        splitSegsLoop text cs ov fuel (nextStart ov (chunkEnd text cs ov start))
    else []

/-- `DocumentProcessor._split_text(text, chunk_size, overlap)`. -/
def split_text (text : List Char) (cs ov : Nat) : List (List Char) :=
  if text.length ≤ cs then [text]
  else splitChunksLoop text cs ov text.length 0

/-- The windows `(start, end)` visited by `_split_text` (a single full
window for the short-text fast path). -/
def split_segs (text : List Char) (cs ov : Nat) : List (Nat × Nat) :=
  if text.length ≤ cs then [(0, text.length)]
  else splitSegsLoop text cs ov text.length 0

/-- Join the window texts dropping, from each window, the positions it
shares with the previous one: the window `(s, e)` following a window that
ended at `prev` contributes `text[prev:e]`, i.e. the window text
`text[s:e]` with its overlap region `[s, prev)` removed. -/
def joinSegs (text : List Char) : Nat → List (Nat × Nat) → List Char
  | _, [] => []
  | prev, (_, e) :: rest => pySlice text prev e ++ joinSegs text e rest

/-- The claim's re-joining operation on the returned chunks themselves:
keep the first chunk whole and drop the first `ov` characters of every
later chunk. -/
def overlapJoin (ov : Nat) : List (List Char) → List Char
  | [] => []
  | c :: rest => c ++ (rest.map (fun x => x.drop ov)).flatten

/-- Erase all whitespace; two texts equal after `eraseWS` agree on their
non-whitespace content, so any whitespace normalization preserves it. -/
def eraseWS (l : List Char) : List Char := l.filter (fun c => !(isWS c))

theorem rfindFrom_bounds (text sep : List Char) (lo : Nat) :
    ∀ d i, rfindFrom text sep lo d = some i → lo ≤ i ∧ i ≤ lo + d := by
  intro d
  induction d with
  | zero =>
    intro i h
    simp only [rfindFrom] at h
    split at h
    · cases h; omega
    · cases h
  | succ d ih =>
    intro i h
    simp only [rfindFrom] at h
    split at h
    · cases h; omega
    · have := ih i h; omega

theorem pyRfind_bounds (text sep : List Char) (lo hi i : Nat)
    (h : pyRfind text sep lo hi = some i) : lo ≤ i ∧ i + sep.length ≤ hi := by
  unfold pyRfind at h
  split at h
  · have := rfindFrom_bounds text sep lo _ _ h
    omega
  · cases h

theorem findSentenceEnd_bounds (text : List Char) (lo hi : Nat) :
    ∀ seps se, findSentenceEnd text lo hi seps = some se → se ≤ hi := by
  intro seps
  induction seps with
  | nil => intro se h; cases h
  | cons sep rest ih =>
    intro se h
    simp only [findSentenceEnd] at h
    cases hp : pyRfind text sep lo hi with
    | some i =>
      rw [hp] at h
      cases h
      have := pyRfind_bounds text sep lo hi i hp
      omega
    | none =>
      rw [hp] at h
      exact ih se h

theorem chunkEnd_le (text : List Char) (cs ov s : Nat) :
    chunkEnd text cs ov s ≤ s + cs := by
  unfold chunkEnd
  split
  · cases hf : findSentenceEnd text (s + cs - ov) (s + cs) sentenceSeps with
    | some se =>
      dsimp only
      split
      · exact findSentenceEnd_bounds text _ _ sentenceSeps se hf
      · exact Nat.min_le_left _ _
    | none =>
      dsimp only
      exact Nat.min_le_left _ _
  · omega

theorem chunkEnd_lb (text : List Char) (cs ov s : Nat) (hov : ov ≤ cs) :
    s + cs - ov ≤ chunkEnd text cs ov s ∧
      (0 < ov → s + cs - ov + 1 ≤ chunkEnd text cs ov s) := by
  unfold chunkEnd
  split
  · rename_i hlt
    cases hf : findSentenceEnd text (s + cs - ov) (s + cs) sentenceSeps with
    | some se =>
      dsimp only
      split
      · rename_i hgt; omega
      · rw [Nat.min_eq_left (Nat.le_of_lt hlt)]; omega
    | none =>
      dsimp only
      rw [Nat.min_eq_left (Nat.le_of_lt hlt)]; omega
  · omega

theorem nextStart_le (ov e : Nat) : nextStart ov e ≤ e := by
  unfold nextStart; split <;> omega

theorem nextStart_progress (text : List Char) (cs ov s : Nat)
    (h1 : 0 < cs) (h2 : 2 * ov ≤ cs) (_hs : s < text.length) :
    s < nextStart ov (chunkEnd text cs ov s) := by
  have hub := chunkEnd_le text cs ov s
  have hlb := chunkEnd_lb text cs ov s (by omega)
  rcases Nat.eq_zero_or_pos ov with h0 | h0
  · subst h0
    unfold nextStart
    split <;> omega
  · have hlb2 := hlb.2 h0
    unfold nextStart
    split <;> omega

theorem splitChunksLoop_stable (text : List Char) (cs ov : Nat)
    (h1 : 0 < cs) (h2 : 2 * ov ≤ cs) :
    ∀ fuel start, text.length ≤ start + fuel →
      splitChunksLoop text cs ov (fuel + 1) start =
        splitChunksLoop text cs ov fuel start := by
  intro fuel
  induction fuel with
  | zero =>
    intro start h
    simp only [splitChunksLoop]
    rw [if_neg (by omega)]
  | succ fuel ih =>
    intro start h
    by_cases hs : start < text.length
    · have hp := nextStart_progress text cs ov start h1 h2 hs
      conv_lhs => rw [splitChunksLoop]
      conv_rhs => rw [splitChunksLoop]
      rw [if_pos hs, if_pos hs,
        ih (nextStart ov (chunkEnd text cs ov start)) (by omega)]
    · conv_lhs => rw [splitChunksLoop]
      conv_rhs => rw [splitChunksLoop]
      rw [if_neg hs, if_neg hs]

theorem pySlice_append_drop (t : List Char) (a b : Nat) (h : a ≤ b) :
    pySlice t a b ++ t.drop b = t.drop a := by
  unfold pySlice
  have hd : t.drop b = (t.drop a).drop (b - a) := by
    rw [List.drop_drop]
    congr 1
    omega
  rw [hd, List.take_append_drop]

theorem joinSegs_splitSegsLoop (text : List Char) (cs ov : Nat)
    (h1 : 0 < cs) (h2 : 2 * ov ≤ cs) :
    ∀ fuel start prev, text.length ≤ start + fuel → start ≤ prev →
      (start < text.length → prev ≤ chunkEnd text cs ov start) →
      (text.length ≤ start → text.length ≤ prev) →
      joinSegs text prev (splitSegsLoop text cs ov fuel start) = text.drop prev := by
  intro fuel
  induction fuel with
  | zero =>
    intro start prev h hsp h3 h4
    simp only [splitSegsLoop, joinSegs]
    exact (List.drop_eq_nil_of_le (by omega)).symm
  | succ fuel ih =>
    intro start prev h hsp h3 h4
    by_cases hs : start < text.length
    · simp only [splitSegsLoop]
      rw [if_pos hs]
      simp only [joinSegs]
      have hub := chunkEnd_le text cs ov start
      have hlb := chunkEnd_lb text cs ov start (by omega)
      have hlbs := chunkEnd_lb text cs ov (nextStart ov (chunkEnd text cs ov start)) (by omega)
      have hprog := nextStart_progress text cs ov start h1 h2 hs
      have hns := nextStart_le ov (chunkEnd text cs ov start)
      have hcase : nextStart ov (chunkEnd text cs ov start) = chunkEnd text cs ov start - ov ∧
            0 < ov ∧ ov < chunkEnd text cs ov start ∨
          nextStart ov (chunkEnd text cs ov start) = chunkEnd text cs ov start := by
        unfold nextStart
        split
        · rename_i hc; exact Or.inl ⟨rfl, hc⟩
        · exact Or.inr rfl
      rw [ih (nextStart ov (chunkEnd text cs ov start)) (chunkEnd text cs ov start)
            (by omega) hns (fun _ => by omega) (by omega)]
      exact pySlice_append_drop text prev (chunkEnd text cs ov start) (h3 hs)
    · simp only [splitSegsLoop]
      rw [if_neg hs]
      simp only [joinSegs]
      exact (List.drop_eq_nil_of_le (h4 (by omega))).symm

theorem splitChunksLoop_eq_segs (text : List Char) (cs ov : Nat) :
    ∀ fuel start,
      splitChunksLoop text cs ov fuel start =
        ((splitSegsLoop text cs ov fuel start).map
          (fun p => pyStrip (pySlice text p.1 p.2))).filter (fun c => !(c.isEmpty)) := by
  intro fuel
  induction fuel with
  | zero => intro start; simp [splitChunksLoop, splitSegsLoop]
  | succ fuel ih =>
    intro start
    by_cases hs : start < text.length
    · simp only [splitChunksLoop, splitSegsLoop, if_pos hs, List.map_cons, List.filter_cons]
      by_cases hc : pyStrip (pySlice text start (chunkEnd text cs ov start)) = []
      · rw [if_pos hc, ih]
        simp [hc]
      · rw [if_neg hc, ih]
        simp [List.isEmpty_iff, hc]
    · simp [splitChunksLoop, splitSegsLoop, hs]

/-- C1: the claim fails on the code.  On `"abcde\n\ndefghijklmnop"` with
`chunk_size = 8`, `overlap = 2` (so `overlap < chunk_size`), `_split_text`
returns `["abcde", "defghi", "hijklmno", "nop"]`; re-joining these chunks
with the overlap removed from each consecutive pair loses the
non-whitespace characters `"de"` (the second window starts inside the
stripped `"\n\n"`), so the result differs from the original text even
after erasing all whitespace. -/
theorem c1_counterexample :
    split_text "abcde\n\ndefghijklmnop".data 8 2 =
      ["abcde".data, "defghi".data, "hijklmno".data, "nop".data] ∧
    (2 : Nat) < 8 ∧
    eraseWS (overlapJoin 2 (split_text "abcde\n\ndefghijklmnop".data 8 2)) ≠
      eraseWS "abcde\n\ndefghijklmnop".data := by
  refine ⟨by decide, by decide, by decide⟩

/-- C1 (amended): reconstruction holds at the window level, before
stripping.  Under `0 < chunk_size` and `2 * overlap ≤ chunk_size`, joining
the windows `(start, end)` visited by `_split_text`, with the positions
each window shares with its predecessor removed, yields the original text
exactly; and the returned chunks are exactly those window texts with
boundary whitespace stripped and empty results dropped. -/
theorem c1_reconstruction_amended (text : List Char) (cs ov : Nat)
    (h1 : 0 < cs) (h2 : 2 * ov ≤ cs) :
    joinSegs text 0 (split_segs text cs ov) = text ∧
    (cs < text.length →
      split_text text cs ov =
        ((split_segs text cs ov).map
          (fun p => pyStrip (pySlice text p.1 p.2))).filter (fun c => !(c.isEmpty))) := by
  constructor
  · unfold split_segs
    split
    · simp only [joinSegs, pySlice, List.drop_zero, Nat.sub_zero, List.append_nil]
      exact List.take_length ..
    · rename_i hlen
      have := joinSegs_splitSegsLoop text cs ov h1 h2 text.length 0 0
        (by omega) (by omega) (fun _ => by omega) (by omega)
      simpa using this
  · intro hlt
    unfold split_text split_segs
    rw [if_neg (by omega), if_neg (by omega)]
    exact splitChunksLoop_eq_segs text cs ov text.length 0

/-- Witness for the amended C1 at a concrete input. -/
theorem c1_reconstruction_amended_witness :
    joinSegs "abcde\n\ndefghijklmnop".data 0 (split_segs "abcde\n\ndefghijklmnop".data 8 2) =
      "abcde\n\ndefghijklmnop".data ∧
    split_text "abcde\n\ndefghijklmnop".data 8 2 =
      ((split_segs "abcde\n\ndefghijklmnop".data 8 2).map
        (fun p => pyStrip (pySlice "abcde\n\ndefghijklmnop".data p.1 p.2))).filter
          (fun c => !(c.isEmpty)) :=
  ⟨(c1_reconstruction_amended "abcde\n\ndefghijklmnop".data 8 2
      (by decide) (by decide)).1,
   (c1_reconstruction_amended "abcde\n\ndefghijklmnop".data 8 2
      (by decide) (by decide)).2 (by decide)⟩

/-- C10: under `0 < chunk_size` and `2 * overlap ≤ chunk_size` every
iteration of the `_split_text` while-loop strictly increases `start`
(even when the separator search moves the cut point back and the overlap
step-back reduces it again), and consequently the loop is insensitive to
any fuel beyond `text.length - start`: the loop terminates. -/
theorem c10_split_text_terminates (text : List Char) (cs ov start fuel : Nat)
    (h1 : 0 < cs) (h2 : 2 * ov ≤ cs) :
    (start < text.length → start < nextStart ov (chunkEnd text cs ov start)) ∧
    (text.length ≤ start + fuel →
      splitChunksLoop text cs ov (fuel + 1) start =
        splitChunksLoop text cs ov fuel start) :=
  ⟨nextStart_progress text cs ov start h1 h2,
   splitChunksLoop_stable text cs ov h1 h2 fuel start⟩

/-- Witness for C10 at a concrete input. -/
theorem c10_split_text_terminates_witness :
    (0 : Nat) < "abcde\n\ndefghijklmnop".data.length ∧
    0 < nextStart 2 (chunkEnd "abcde\n\ndefghijklmnop".data 8 2 0) ∧
    splitChunksLoop "abcde\n\ndefghijklmnop".data 8 2 21 0 =
      splitChunksLoop "abcde\n\ndefghijklmnop".data 8 2 20 0 :=
  ⟨by decide,
   (c10_split_text_terminates "abcde\n\ndefghijklmnop".data 8 2 0 20
      (by decide) (by decide)).1 (by decide),
   (c10_split_text_terminates "abcde\n\ndefghijklmnop".data 8 2 0 20
      (by decide) (by decide)).2 (by decide)⟩

/-- The chunk id `f"{doc_id}_chunk_{i}"` assigned by
`RAGPipeline.add_document_to_rag` to the `i`-th chunk of `doc_id`. -/
def chunkDocId (doc_id : List Char) (i : Nat) : List Char :=
  doc_id ++ "_chunk_".data ++ (Nat.repr i).data

/-- The chunk ids `add_document_to_rag` stores for a document that was
processed into `n` chunks. -/
def addedChunkIds (doc_id : List Char) (n : Nat) : List (List Char) :=
  (List.range n).map (chunkDocId doc_id)

/-- The ids `delete_document_from_rag(doc_id)` selects for deletion from
the store's id list: `[id for id in all_ids if
id.startswith(f"{doc_id}_chunk_")]`. -/
def deleteTargets (doc_id : List Char) (all_ids : List (List Char)) : List (List Char) :=
  all_ids.filter (fun id => (doc_id ++ "_chunk_".data).isPrefixOf id)

/-- The store's id list after `delete_document_from_rag(doc_id)` removed
every selected chunk id. -/
def storeAfterDelete (doc_id : List Char) (all_ids : List (List Char)) : List (List Char) :=
  all_ids.filter (fun id => !((doc_id ++ "_chunk_".data).isPrefixOf id))

/-- C2: `delete_document_from_rag` deletes exactly the stored ids carrying
the prefix `f"{doc_id}_chunk_"` — which is exactly the prefix of every id
`add_document_to_rag` assigns for `doc_id` — and the concrete scenario:
with store `[doc42_chunk_0, doc42_chunk_1, doc42_chunk_2, doc7_chunk_0]`,
deleting `doc42` removes precisely the first three ids and leaves
`doc7_chunk_0` in the store. -/
theorem c2_cascade_delete_exact (doc_id : List Char) (all_ids : List (List Char))
    (id : List Char) (n i : Nat) (hi : i < n) :
    (id ∈ deleteTargets doc_id all_ids ↔
      id ∈ all_ids ∧ (doc_id ++ "_chunk_".data).isPrefixOf id = true) ∧
    (id ∈ storeAfterDelete doc_id all_ids ↔
      id ∈ all_ids ∧ (doc_id ++ "_chunk_".data).isPrefixOf id = false) ∧
    chunkDocId doc_id i ∈ addedChunkIds doc_id n ∧
    (doc_id ++ "_chunk_".data).isPrefixOf (chunkDocId doc_id i) = true ∧
    deleteTargets "doc42".data
        ["doc42_chunk_0".data, "doc42_chunk_1".data, "doc42_chunk_2".data,
          "doc7_chunk_0".data] =
      ["doc42_chunk_0".data, "doc42_chunk_1".data, "doc42_chunk_2".data] ∧
    storeAfterDelete "doc42".data
        ["doc42_chunk_0".data, "doc42_chunk_1".data, "doc42_chunk_2".data,
          "doc7_chunk_0".data] =
      ["doc7_chunk_0".data] := by
  refine ⟨?_, ?_, ?_, ?_, by decide, by decide⟩
  · simp [deleteTargets, List.mem_filter]
  · simp [storeAfterDelete, List.mem_filter]
  · exact List.mem_map.mpr ⟨i, List.mem_range.mpr hi, rfl⟩
  · unfold chunkDocId
    rw [List.isPrefixOf_iff_prefix]
    exact List.prefix_append ..

/-- Witness for C2 at a concrete input. -/
theorem c2_cascade_delete_exact_witness :
    ("doc42_chunk_1".data ∈ deleteTargets "doc42".data
        ["doc42_chunk_0".data, "doc42_chunk_1".data, "doc42_chunk_2".data,
          "doc7_chunk_0".data] ↔
      "doc42_chunk_1".data ∈
          ["doc42_chunk_0".data, "doc42_chunk_1".data, "doc42_chunk_2".data,
            "doc7_chunk_0".data] ∧
        ("doc42".data ++ "_chunk_".data).isPrefixOf "doc42_chunk_1".data = true) ∧
    chunkDocId "doc42".data 1 ∈ addedChunkIds "doc42".data 3 :=
  ⟨(c2_cascade_delete_exact "doc42".data
      ["doc42_chunk_0".data, "doc42_chunk_1".data, "doc42_chunk_2".data,
        "doc7_chunk_0".data] "doc42_chunk_1".data 3 1 (by decide)).1,
   (c2_cascade_delete_exact "doc42".data
      ["doc42_chunk_0".data, "doc42_chunk_1".data, "doc42_chunk_2".data,
        "doc7_chunk_0".data] "doc42_chunk_1".data 3 1 (by decide)).2.2.1⟩

/-- A metadata value as stored in the duck-typed metadata dictionaries
(string, integer or boolean). -/
inductive MVal where
  | s : List Char → MVal
  | n : Int → MVal
  | b : Bool → MVal
deriving DecidableEq

/-- Python `str(v)` for a metadata value, as used by f-string
interpolation. -/
def showMVal : MVal → List Char
  | .s v => v
  | .n i => (toString i).data
  | .b true => "True".data
  | .b false => "False".data

/-- One formatted result of `VectorStore.search`:
`{'id': ..., 'content': ..., 'distance': ..., 'metadata': ...}`. -/
structure SearchResult where
  id : List Char
  content : List Char
  distance : ℚ
  metadata : List (List Char × MVal)
deriving DecidableEq

/-- The `source_info` dictionary `query_rag_with_sources` builds for each
retrieved result. -/
structure SourceInfo where
  id : List Char
  distance : ℚ
  file_name : MVal
  chunk_index : MVal
  page_number : Option MVal
  section_title : MVal
  content_preview : List Char
deriving DecidableEq

/-- Python `"sep".join(parts)`. -/
def joinSep (sep : List Char) : List (List Char) → List Char
  | [] => []
  | [x] => x
  | x :: y :: rest => x ++ sep ++ joinSep sep (y :: rest)

/-- The parenthetical source tag `query_rag` appends to each retrieved
chunk when the result carries a (truthy, i.e. non-empty) metadata dict. -/
def sourceTag (m : List (List Char × MVal)) : List Char :=
  if m = [] then []
  else " (Source: ".data ++
    showMVal ((m.lookup "file_name".data).getD (.s "Unknown".data)) ++ ")".data

/-- The context block `query_rag` assembles from the retrieved chunks. -/
def ragContext (results : List SearchResult) : List Char :=
  joinSep "\n\n".data (results.map (fun r => r.content ++ sourceTag r.metadata))

/-- The context block `query_rag_with_sources` assembles (content only,
no source tag). -/
def ragContextPlain (results : List SearchResult) : List Char :=
  joinSep "\n\n".data (results.map (fun r => r.content))

/-- The `source_info` entry built from one search result. -/
def sourceOf (r : SearchResult) : SourceInfo where
  id := r.id
  distance := r.distance
  file_name := (r.metadata.lookup "file_name".data).getD (.s "Unknown".data)
  chunk_index := (r.metadata.lookup "chunk_index".data).getD (.n (-1))
  page_number := r.metadata.lookup "page_number".data
  section_title := (r.metadata.lookup "section_title".data).getD (.s [])
  content_preview :=
    if 200 < r.content.length then r.content.take 200 ++ "...".data else r.content

/-- The sentinel returned when the vector store yields no results. -/
def noResultsMsg : List Char :=
  "I couldn\x27t find any relevant information in the documents to answer your query.".data

/-- The fallback returned from the `except` handler of the query methods. -/
def queryErrorMsg : List Char :=
  "I encountered an error while processing your query. Please try again.".data

/-- `RAGPipeline.query_rag`.  The vector-store search outcome and the
generation client are passed as parameters: `search` is the result of
`vector_store.search` (`Except.error` models an exception escaping it) and
`gen prompt context` is `gemini_client.generate_content` (`Except.error`
models an exception raised by the generation call).  The returned flag
records whether the generation client was invoked; the function is total,
so no exception propagates to the caller. -/
def query_rag (search : Except Unit (List SearchResult))
    (gen : List Char → List Char → Except Unit (List Char)) (query : List Char) :
    List Char × Bool :=
  match search with
  | .error _ => (queryErrorMsg, false)
  | .ok results =>
    if results = [] then (noResultsMsg, false)
    else
      match gen query (ragContext results) with
      | .ok r => (r, true)
      | .error _ => (queryErrorMsg, true)

/-- `RAGPipeline.query_rag_with_sources`, returning the response, the
sources list and the generation-invoked flag. -/
def query_rag_with_sources (search : Except Unit (List SearchResult))
    (gen : List Char → List Char → Except Unit (List Char)) (query : List Char) :
    List Char × List SourceInfo × Bool :=
  match search with
  | .error _ => (queryErrorMsg, [], false)
  | .ok results =>
    if results = [] then (noResultsMsg, [], false)
    else
      match gen query (ragContextPlain results) with
      | .ok r => (r, results.map sourceOf, true)
      | .error _ => (queryErrorMsg, [], true)

/-- C3: when the vector store search yields zero results, `query_rag`
returns exactly the "no relevant information" sentinel and the generation
client is not invoked (flag `false`); likewise for
`query_rag_with_sources`, which additionally returns no sources. -/
theorem c3_empty_results_sentinel
    (gen : List Char → List Char → Except Unit (List Char)) (query : List Char) :
    query_rag (.ok []) gen query = (noResultsMsg, false) ∧
    query_rag_with_sources (.ok []) gen query = (noResultsMsg, [], false) :=
  ⟨rfl, rfl⟩

/-- C6: on an exception during retrieval, or during generation (for any
non-empty result list), `query_rag` returns the fixed fallback string and
`query_rag_with_sources` returns it with an empty sources list; both are
total functions, so the exception never propagates. -/
theorem c6_exception_fallback
    (gen : List Char → List Char → Except Unit (List Char))
    (query : List Char) (results : List SearchResult) (h : results ≠ []) :
    query_rag (.error ()) gen query = (queryErrorMsg, false) ∧
    query_rag_with_sources (.error ()) gen query = (queryErrorMsg, [], false) ∧
    query_rag (.ok results) (fun _ _ => .error ()) query = (queryErrorMsg, true) ∧
    query_rag_with_sources (.ok results) (fun _ _ => .error ()) query =
      (queryErrorMsg, [], true) := by
  refine ⟨rfl, rfl, ?_, ?_⟩
  · unfold query_rag
    dsimp only
    rw [if_neg h]
  · unfold query_rag_with_sources
    dsimp only
    rw [if_neg h]

/-- Witness for C6 at a concrete input. -/
theorem c6_exception_fallback_witness :
    query_rag (.ok [⟨"doc1_chunk_0".data, "some text".data, 0, []⟩])
        (fun _ _ => .error ()) "what is this".data = (queryErrorMsg, true) ∧
    query_rag_with_sources (.ok [⟨"doc1_chunk_0".data, "some text".data, 0, []⟩])
        (fun _ _ => .error ()) "what is this".data = (queryErrorMsg, [], true) :=
  ⟨(c6_exception_fallback (fun _ _ => .ok []) "what is this".data
      [⟨"doc1_chunk_0".data, "some text".data, 0, []⟩] (by decide)).2.2.1,
   (c6_exception_fallback (fun _ _ => .ok []) "what is this".data
      [⟨"doc1_chunk_0".data, "some text".data, 0, []⟩] (by decide)).2.2.2⟩

/-- `EmbeddingGenerator.calculate_similarity`, with Python floats modelled
as real numbers: `np.dot` of equal-length vectors is the sum of pairwise
products and `np.linalg.norm` is the square root of the sum of squares.
Returns `0.0` when either vector is empty or the lengths differ, and when
either norm is zero; otherwise the cosine `dot / (norm1 * norm2)`. -/
noncomputable def calculate_similarity (embedding1 embedding2 : List ℝ) : ℝ :=
  if embedding1 = [] ∨ embedding2 = [] ∨ embedding1.length ≠ embedding2.length then 0
  else
    if Real.sqrt ((embedding1.map (fun x => x * x)).sum) = 0 ∨
        Real.sqrt ((embedding2.map (fun x => x * x)).sum) = 0 then 0
    else
      (List.zipWith (fun x y => x * y) embedding1 embedding2).sum /
        (Real.sqrt ((embedding1.map (fun x => x * x)).sum) *
          Real.sqrt ((embedding2.map (fun x => x * x)).sum))

theorem sumSq_nonneg (l : List ℝ) : 0 ≤ (l.map (fun x => x * x)).sum := by
  apply List.sum_nonneg
  intro x hx
  rcases List.mem_map.mp hx with ⟨y, _, rfl⟩
  exact mul_self_nonneg y

theorem zipWith_mul_comm (a b : List ℝ) :
    List.zipWith (fun x y => x * y) a b = List.zipWith (fun x y => x * y) b a := by
  induction a generalizing b with
  | nil => cases b <;> rfl
  | cons x xs ih =>
    cases b with
    | nil => rfl
    | cons y ys => simp [List.zipWith, mul_comm, ih]

/-- Cauchy-Schwarz for the truncating pairwise product of two lists. -/
theorem list_cauchy_schwarz (a b : List ℝ) :
    ((List.zipWith (fun x y => x * y) a b).sum) ^ 2 ≤
      ((a.map (fun x => x * x)).sum) * ((b.map (fun x => x * x)).sum) := by
  induction a generalizing b with
  | nil =>
    simp only [List.zipWith_nil_left, List.sum_nil, ne_eq, OfNat.ofNat_ne_zero,
      not_false_eq_true, zero_pow]
    exact mul_nonneg (sumSq_nonneg []) (sumSq_nonneg b)
  | cons x xs ih =>
    cases b with
    | nil =>
      simp only [List.zipWith_nil_right, List.sum_nil, ne_eq, OfNat.ofNat_ne_zero,
        not_false_eq_true, zero_pow]
      exact mul_nonneg (sumSq_nonneg (x :: xs)) (sumSq_nonneg [])
    | cons y ys =>
      have hA := sumSq_nonneg xs
      have hB := sumSq_nonneg ys
      have hIH := ih ys
      simp only [List.zipWith, List.map_cons, List.sum_cons]
      rcases eq_or_lt_of_le hB with hB0 | hB0
      · have hd : (List.zipWith (fun x y => x * y) xs ys).sum = 0 := by
          have h1 : ((List.zipWith (fun x y => x * y) xs ys).sum) ^ 2 ≤ 0 := by
            calc ((List.zipWith (fun x y => x * y) xs ys).sum) ^ 2 ≤
                ((xs.map (fun x => x * x)).sum) * ((ys.map (fun x => x * x)).sum) := hIH
              _ = 0 := by rw [← hB0]; ring
          exact pow_eq_zero_iff (n := 2) (by norm_num) |>.mp
            (le_antisymm h1 (sq_nonneg _))
        rw [hd, ← hB0]
        nlinarith [sq_nonneg (x * y), sq_nonneg y, mul_nonneg hA (sq_nonneg y)]
      · nlinarith [sq_nonneg (x * ((ys.map (fun x => x * x)).sum) -
          y * (List.zipWith (fun x y => x * y) xs ys).sum),
          mul_nonneg (add_nonneg (sq_nonneg y) hB0.le)
            (sub_nonneg.mpr hIH)]

theorem calculate_similarity_comm (a b : List ℝ) :
    calculate_similarity a b = calculate_similarity b a := by
  have hlen : a.length ≠ b.length ↔ b.length ≠ a.length := ne_comm
  unfold calculate_similarity
  rw [zipWith_mul_comm, mul_comm (Real.sqrt ((a.map (fun x => x * x)).sum))]
  split_ifs <;> first | rfl | tauto

theorem calculate_similarity_bounds (a b : List ℝ) :
    -1 ≤ calculate_similarity a b ∧ calculate_similarity a b ≤ 1 := by
  unfold calculate_similarity
  split
  · norm_num
  · split
    · norm_num
    · rename_i h1 h2
      push_neg at h2
      obtain ⟨hn1, hn2⟩ := h2
      have hA := sumSq_nonneg a
      have hB := sumSq_nonneg b
      have hs1 : 0 < Real.sqrt ((a.map (fun x => x * x)).sum) :=
        lt_of_le_of_ne (Real.sqrt_nonneg _) (Ne.symm hn1)
      have hs2 : 0 < Real.sqrt ((b.map (fun x => x * x)).sum) :=
        lt_of_le_of_ne (Real.sqrt_nonneg _) (Ne.symm hn2)
      have hsq : ((List.zipWith (fun x y => x * y) a b).sum) ^ 2 ≤
          (Real.sqrt ((a.map (fun x => x * x)).sum) *
            Real.sqrt ((b.map (fun x => x * x)).sum)) ^ 2 := by
        rw [mul_pow, Real.sq_sqrt hA, Real.sq_sqrt hB]
        exact list_cauchy_schwarz a b
      have hm := mul_pos hs1 hs2
      constructor
      · rw [le_div_iff₀ hm]
        nlinarith [sq_nonneg ((List.zipWith (fun x y => x * y) a b).sum +
          Real.sqrt ((a.map (fun x => x * x)).sum) *
            Real.sqrt ((b.map (fun x => x * x)).sum))]
      · rw [div_le_one hm]
        nlinarith [sq_nonneg ((List.zipWith (fun x y => x * y) a b).sum -
          Real.sqrt ((a.map (fun x => x * x)).sum) *
            Real.sqrt ((b.map (fun x => x * x)).sum))]

/-- C4: the claim fails on the code.  Cosine similarity of opposite
vectors is negative: `calculate_similarity([1.0], [-1.0])` returns exactly
`-1.0` (the arithmetic is exact here even in IEEE floats), outside the
claimed range `[0, 1]`. -/
theorem c4_counterexample :
    calculate_similarity [1] [-1] = -1 ∧ calculate_similarity [1] [-1] < 0 := by
  have h : calculate_similarity [1] [-1] = -1 := by
    unfold calculate_similarity
    norm_num [Real.sqrt_one]
  exact ⟨h, by rw [h]; norm_num⟩

/-- C4 (amended): `calculate_similarity` is symmetric, its result lies in
`[-1, 1]` (not `[0, 1]`), and it returns exactly `0.0` (without raising)
when either vector is empty or the lengths differ. -/
theorem c4_similarity_amended (a b : List ℝ) :
    calculate_similarity a b = calculate_similarity b a ∧
    (-1 ≤ calculate_similarity a b ∧ calculate_similarity a b ≤ 1) ∧
    (a = [] → calculate_similarity a b = 0) ∧
    (b = [] → calculate_similarity a b = 0) ∧
    (a.length ≠ b.length → calculate_similarity a b = 0) := by
  refine ⟨calculate_similarity_comm a b, calculate_similarity_bounds a b, ?_, ?_, ?_⟩
  · intro h
    unfold calculate_similarity
    rw [if_pos (Or.inl h)]
  · intro h
    unfold calculate_similarity
    rw [if_pos (Or.inr (Or.inl h))]
  · intro h
    unfold calculate_similarity
    rw [if_pos (Or.inr (Or.inr h))]

/-- Witness for the amended C4 at concrete inputs. -/
theorem c4_similarity_amended_witness :
    calculate_similarity [] [(1 : ℝ)] = 0 ∧
    calculate_similarity [(1 : ℝ), 2] [(1 : ℝ)] = 0 ∧
    -1 ≤ calculate_similarity [(1 : ℝ)] [(2 : ℝ)] :=
  ⟨(c4_similarity_amended [] [(1 : ℝ)]).2.2.1 rfl,
   (c4_similarity_amended [(1 : ℝ), 2] [(1 : ℝ)]).2.2.2.2 (by norm_num),
   ((c4_similarity_amended [(1 : ℝ)] [(2 : ℝ)]).2.1).1⟩

/-- One entry of the list `find_most_similar` ranks: the candidate's
original position and its similarity to the query. -/
structure SimEntry where
  index : Nat
  similarity : ℝ

/-- The `for idx, embedding in enumerate(embeddings): if embedding: ...`
accumulation in `find_most_similar`, carrying the running index. -/
noncomputable def simEntries (q : List ℝ) (i : Nat) : List (List ℝ) → List SimEntry
  | [] => []
  | e :: rest =>
    if e = [] then simEntries q (i + 1) rest
    else ⟨i, calculate_similarity q e⟩ :: simEntries q (i + 1) rest

/-- Stable insertion into a descending-sorted list: the new element goes
after every element with similarity `≥` its own (it came later in the
input), before the first strictly smaller one. -/
noncomputable def insertDesc (x : SimEntry) : List SimEntry → List SimEntry
  | [] => [x]
  | y :: ys =>
    if x.similarity < y.similarity then y :: insertDesc x ys else x :: y :: ys

/-- Stable sort by similarity in descending order.  Python's
`list.sort(key=..., reverse=True)` is specified to be stable, and a stable
sort under a fixed key is unique, so this insertion sort computes exactly
the list the Python code produces. -/
noncomputable def sortDescBySim : List SimEntry → List SimEntry
  | [] => []
  | x :: xs => insertDesc x (sortDescBySim xs)

/-- `EmbeddingGenerator.find_most_similar`. -/
noncomputable def find_most_similar (query_embedding : List ℝ)
    (embeddings : List (List ℝ)) : List SimEntry :=
  if query_embedding = [] ∨ embeddings = [] then []
  else sortDescBySim (simEntries query_embedding 0 embeddings)

/-- The ranking relation claimed for the output: descending similarity,
with equal similarities ordered by original index. -/
def RankedBefore (a b : SimEntry) : Prop :=
  b.similarity ≤ a.similarity ∧ (a.similarity = b.similarity → a.index < b.index)

theorem simEntries_index_lb (q : List ℝ) :
    ∀ es i y, y ∈ simEntries q i es → i ≤ y.index := by
  intro es
  induction es with
  | nil => intro i y h; cases h
  | cons e rest ih =>
    intro i y h
    simp only [simEntries] at h
    split at h
    · have := ih (i + 1) y h; omega
    · rcases List.mem_cons.mp h with rfl | h
      · exact Nat.le_refl i
      · have := ih (i + 1) y h; omega

theorem simEntries_index_sorted (q : List ℝ) :
    ∀ es i, (simEntries q i es).Pairwise (fun a b => a.index < b.index) := by
  intro es
  induction es with
  | nil => intro i; exact List.Pairwise.nil
  | cons e rest ih =>
    intro i
    simp only [simEntries]
    split
    · exact ih (i + 1)
    · exact List.Pairwise.cons
        (fun y hy => simEntries_index_lb q rest (i + 1) y hy)
        (ih (i + 1))

theorem mem_insertDesc (x : SimEntry) :
    ∀ l y, y ∈ insertDesc x l → y = x ∨ y ∈ l := by
  intro l
  induction l with
  | nil => intro y h; rcases List.mem_singleton.mp h with rfl; exact Or.inl rfl
  | cons z zs ih =>
    intro y h
    simp only [insertDesc] at h
    split at h
    · rcases List.mem_cons.mp h with rfl | h
      · exact Or.inr (List.mem_cons_self ..)
      · rcases ih y h with h | h
        · exact Or.inl h
        · exact Or.inr (List.mem_cons_of_mem _ h)
    · rcases List.mem_cons.mp h with rfl | h
      · exact Or.inl rfl
      · exact Or.inr h

theorem pairwise_insertDesc (x : SimEntry) :
    ∀ l, l.Pairwise RankedBefore → (∀ y ∈ l, x.index < y.index) →
      (insertDesc x l).Pairwise RankedBefore := by
  intro l
  induction l with
  | nil => intro _ _; simp [insertDesc]
  | cons y ys ih =>
    intro hp hidx
    rw [List.pairwise_cons] at hp
    simp only [insertDesc]
    split
    · rename_i hlt
      refine List.Pairwise.cons ?_ (ih hp.2 (fun z hz => hidx z (List.mem_cons_of_mem _ hz)))
      intro z hz
      rcases mem_insertDesc x ys z hz with rfl | hz
      · exact ⟨le_of_lt hlt, fun he => absurd he (by exact ne_of_gt hlt)⟩
      · exact hp.1 z hz
    · rename_i hge
      push_neg at hge
      refine List.Pairwise.cons ?_ (List.pairwise_cons.mpr hp)
      intro z hz
      rcases List.mem_cons.mp hz with rfl | hz
      · exact ⟨hge, fun _ => hidx z (List.mem_cons_self ..)⟩
      · have h1 := hp.1 z hz
        exact ⟨le_trans h1.1 hge, fun _ => hidx z (List.mem_cons_of_mem _ hz)⟩

theorem mem_sortDescBySim :
    ∀ l y, y ∈ sortDescBySim l → y ∈ l := by
  intro l
  induction l with
  | nil => intro y h; cases h
  | cons x xs ih =>
    intro y h
    simp only [sortDescBySim] at h
    rcases mem_insertDesc x (sortDescBySim xs) y h with rfl | h
    · exact List.mem_cons_self ..
    · exact List.mem_cons_of_mem _ (ih y h)

theorem pairwise_sortDescBySim :
    ∀ l, l.Pairwise (fun a b => a.index < b.index) →
      (sortDescBySim l).Pairwise RankedBefore := by
  intro l
  induction l with
  | nil => intro _; exact List.Pairwise.nil
  | cons x xs ih =>
    intro hp
    rw [List.pairwise_cons] at hp
    simp only [sortDescBySim]
    exact pairwise_insertDesc x (sortDescBySim xs) (ih hp.2)
      (fun y hy => hp.1 y (mem_sortDescBySim xs y hy))

/-- C5: the list `find_most_similar` returns is sorted in descending order
of similarity, and any two entries with equal similarity appear in
ascending order of their original candidate positions (which is the input
order, since entries carry their `enumerate` index). -/
theorem c5_ranking_stable (query_embedding : List ℝ) (embeddings : List (List ℝ)) :
    (find_most_similar query_embedding embeddings).Pairwise RankedBefore := by
  unfold find_most_similar
  split
  · exact List.Pairwise.nil
  · exact pairwise_sortDescBySim (simEntries query_embedding 0 embeddings)
      (simEntries_index_sorted query_embedding embeddings 0)

/-- `EmbeddingGenerator.generate_embedding`, generic in the vector payload.
The configured embedding client is the parameter `client`
(`.error` models an exception raised by `embed_query`); the whole body is
wrapped in try/except returning `None`, and blank text returns `None`
before the client is consulted. -/
def generate_embedding {β : Type} (client : List Char → Except Unit (List β))
    (text : List Char) : Option (List β) :=
  if text = [] ∨ pyStrip text = [] then none
  else
    match client text with
    | .ok e => some e
    | .error _ => none

/-- `EmbeddingGenerator.generate_embeddings_batch`: one independent
`generate_embedding` call per non-blank text, `None` for blank ones;
per-item failures are caught, so the output always has the input's length
and order. -/
def generate_embeddings_batch {β : Type} (client : List Char → Except Unit (List β))
    (texts : List (List Char)) : List (Option (List β)) :=
  texts.map (fun t =>
    if t ≠ [] ∧ pyStrip t ≠ [] then generate_embedding client t else none)

/-- One output record of `embed_chunks`. -/
structure EmbeddedChunk (β : Type) where
  chunk_id : List Char
  chunk_text : List Char
  embedding : List β
  embedding_length : Nat
  chunk_index : Nat
deriving DecidableEq

/-- The `for i, (chunk, embedding) in enumerate(zip(chunks, embeddings))`
loop of `embed_chunks`: records are appended only when the embedding is
not `None`, and `chunk_index`/`chunk_id` come from the enumerate index. -/
def embedChunksAux {β : Type} : List (List Char) → List (Option (List β)) → Nat →
    List (EmbeddedChunk β)
  | c :: cs, some e :: es, i =>
    ⟨"chunk_".data ++ (Nat.repr i).data, c, e, e.length, i⟩ :: embedChunksAux cs es (i + 1)
  | _ :: cs, none :: es, i => embedChunksAux cs es (i + 1)
  | _, _, _ => []

/-- `EmbeddingGenerator.embed_chunks`. -/
def embed_chunks {β : Type} (client : List Char → Except Unit (List β))
    (chunks : List (List Char)) : List (EmbeddedChunk β) :=
  if chunks = [] then []
  else embedChunksAux chunks (generate_embeddings_batch client chunks) 0

theorem embedChunksAux_spec {β : Type} :
    ∀ (cs : List (List Char)) (es : List (Option (List β))) (j : Nat)
      (r : EmbeddedChunk β), r ∈ embedChunksAux cs es j →
      j ≤ r.chunk_index ∧
      es[r.chunk_index - j]? = some (some r.embedding) ∧
      cs[r.chunk_index - j]? = some r.chunk_text := by
  intro cs
  induction cs with
  | nil => intro es j r h; cases es <;> cases h
  | cons c cs ih =>
    intro es j r h
    cases es with
    | nil => cases h
    | cons oe es =>
      cases oe with
      | some e =>
        simp only [embedChunksAux] at h
        rcases List.mem_cons.mp h with rfl | h
        · simp
        · obtain ⟨h1, h2, h3⟩ := ih es (j + 1) r h
          have hd : r.chunk_index - j = (r.chunk_index - (j + 1)) + 1 := by omega
          rw [hd]
          simp only [List.getElem?_cons_succ]
          exact ⟨by omega, h2, h3⟩
      | none =>
        simp only [embedChunksAux] at h
        obtain ⟨h1, h2, h3⟩ := ih es (j + 1) r h
        have hd : r.chunk_index - j = (r.chunk_index - (j + 1)) + 1 := by omega
        rw [hd]
        simp only [List.getElem?_cons_succ]
        exact ⟨by omega, h2, h3⟩

/-- C7: `embed_chunks` is a total function (a per-chunk embedding failure
never raises); when the embedding of the chunk at position `i` fails
(client exception or blank text, i.e. batch slot `i` is `None`), the
output contains no record for position `i`; and every returned record
carries its original position as `chunk_index`: its `chunk_text` is the
input chunk at that position and its `embedding` is the successful batch
result at that position. -/
theorem c7_embed_chunks_omits_failures {β : Type}
    (client : List Char → Except Unit (List β)) (chunks : List (List Char))
    (i : Nat) (r : EmbeddedChunk β)
    (hr : r ∈ embed_chunks client chunks) :
    ((generate_embeddings_batch client chunks)[i]? = some none →
      r.chunk_index ≠ i) ∧
    chunks[r.chunk_index]? = some r.chunk_text ∧
    (generate_embeddings_batch client chunks)[r.chunk_index]? =
      some (some r.embedding) := by
  have hne : chunks ≠ [] := by
    intro he
    rw [he] at hr
    simp [embed_chunks] at hr
  unfold embed_chunks at hr
  rw [if_neg hne] at hr
  obtain ⟨h1, h2, h3⟩ := embedChunksAux_spec chunks
    (generate_embeddings_batch client chunks) 0 r hr
  rw [Nat.sub_zero] at h2 h3
  refine ⟨?_, h3, h2⟩
  intro hbatch heq
  rw [heq, hbatch] at h2
  cases h2

/-- Witness for C7: a client that fails exactly on the middle chunk of
three; the record for chunk 0 is in the output, carries index 0, and slot
1 (the failed one) yields no record with index 1. -/
theorem c7_embed_chunks_omits_failures_witness :
    ((generate_embeddings_batch
        (fun t => if t = "b".data then .error () else .ok ([1] : List ℚ))
        ["a".data, "b".data, "c".data])[1]? = some none →
      (⟨"chunk_0".data, "a".data, ([1] : List ℚ), 1, 0⟩ :
        EmbeddedChunk ℚ).chunk_index ≠ 1) ∧
    ["a".data, "b".data, "c".data][(⟨"chunk_0".data, "a".data, ([1] : List ℚ), 1, 0⟩ :
      EmbeddedChunk ℚ).chunk_index]? =
      some (⟨"chunk_0".data, "a".data, ([1] : List ℚ), 1, 0⟩ :
        EmbeddedChunk ℚ).chunk_text ∧
    (generate_embeddings_batch
        (fun t => if t = "b".data then .error () else .ok ([1] : List ℚ))
        ["a".data, "b".data, "c".data])[(⟨"chunk_0".data, "a".data,
          ([1] : List ℚ), 1, 0⟩ : EmbeddedChunk ℚ).chunk_index]? =
      some (some (⟨"chunk_0".data, "a".data, ([1] : List ℚ), 1, 0⟩ :
        EmbeddedChunk ℚ).embedding) :=
  c7_embed_chunks_omits_failures
    (fun t => if t = "b".data then .error () else .ok ([1] : List ℚ))
    ["a".data, "b".data, "c".data] 1
    ⟨"chunk_0".data, "a".data, ([1] : List ℚ), 1, 0⟩ (by decide)

/-- Python's substring test `pat in s`, as a boolean. -/
def containsSub (l pat : List Char) : Bool := decide (pat <:+: l)

/-- The book metadata fields `generate_citation` reads (`None` models an
absent dictionary key). -/
structure BookInfo where
  title : Option (List Char)
  author : Option (List Char)
  year : Option (List Char)
deriving DecidableEq

/-- The content-chunk fields `generate_citation` reads. -/
structure ContentChunk where
  page_number : Option Int
  page_num : Option Int
  section_title : Option (List Char)
  sectionKey : Option (List Char)
  chapter : Option (List Char)
deriving DecidableEq

/-- `content_chunk.get('page_number', content_chunk.get('page_num'))`. -/
def pageOf (chunk : ContentChunk) : Option Int :=
  match chunk.page_number with
  | some p => some p
  | none => chunk.page_num

/-- `content_chunk.get('section_title', content_chunk.get('section', ''))`. -/
def sectionOf (chunk : ContentChunk) : List Char :=
  match chunk.section_title with
  | some v => v
  | none => chunk.sectionKey.getD []

/-- The `if page_number:` citation part: emitted only for a present,
non-zero page (Python truthiness), rendered after the given prefix. -/
def pageParts (page : Option Int) (pre : List Char) : List (List Char) :=
  match page with
  | some p => if p ≠ 0 then [pre ++ (toString p).data] else []
  | none => []

/-- `CitationService._format_search_citation`.  Note the year defaults to
the literal `'n.d.'` when the `year` key is absent. -/
def formatSearchCitation (book : BookInfo) (page : Option Int)
    (sectionTitle chapter : List Char) : List Char :=
  joinSep ". ".data
    ([book.author.getD "Unknown Author".data ++ " (".data ++
        book.year.getD "n.d.".data ++ ")".data] ++
      (if chapter ≠ [] then ["Chapter ".data ++ chapter] else []) ++
      (if sectionTitle ≠ [] then [['"'] ++ sectionTitle ++ ['"']] else []) ++
      pageParts page "p. ".data ++
      ["Book: ".data ++ book.title.getD "Unknown Title".data]) ++ ".".data

/-- `CitationService._format_explanation_citation` (no year field). -/
def formatExplanationCitation (book : BookInfo) (page : Option Int)
    (sectionTitle : List Char) : List Char :=
  joinSep ". ".data
    (["From: ".data ++ book.title.getD "Unknown Title".data ++ " by ".data ++
        book.author.getD "Unknown Author".data] ++
      (if sectionTitle ≠ [] then ["Section: ".data ++ ['"'] ++ sectionTitle ++ ['"']] else []) ++
      pageParts page "Page: ".data) ++ ".".data

/-- `CitationService._format_summary_citation` (no year field). -/
def formatSummaryCitation (book : BookInfo) (page : Option Int)
    (sectionTitle : List Char) : List Char :=
  joinSep ". ".data
    (["Source: ".data ++ book.title.getD "Unknown Title".data] ++
      (if sectionTitle ≠ [] then ["Topic: ".data ++ ['"'] ++ sectionTitle ++ ['"']] else []) ++
      pageParts page "Located at page ".data) ++ ".".data

/-- `CitationService._format_general_citation` (no year field). -/
def formatGeneralCitation (book : BookInfo) (page : Option Int)
    (sectionTitle : List Char) : List Char :=
  joinSep ". ".data
    ([book.author.getD "Unknown Author".data ++ ". ".data ++
        book.title.getD "Unknown Title".data] ++
      (if sectionTitle ≠ [] then ["Section: ".data ++ ['"'] ++ sectionTitle ++ ['"']] else []) ++
      pageParts page "Page ".data) ++ ".".data

/-- `CitationService.generate_citation`: dispatch on the `context`
string.  (The local variable `source` in the Python body is computed but
never passed to any formatter, so it is not modelled.) -/
def generate_citation (chunk : ContentChunk) (book : BookInfo)
    (context : List Char) : List Char :=
  if context = "search_result".data then
    formatSearchCitation book (pageOf chunk) (sectionOf chunk) (chunk.chapter.getD [])
  else if context = "explanation".data then
    formatExplanationCitation book (pageOf chunk) (sectionOf chunk)
  else if context = "summary".data then
    formatSummaryCitation book (pageOf chunk) (sectionOf chunk)
  else formatGeneralCitation book (pageOf chunk) (sectionOf chunk)

/-- The claim's example book: a title and an author but no `year` key. -/
def deepLearningBook : BookInfo :=
  ⟨some "Deep Learning".data, some "Goodfellow".data, none⟩

/-- A content chunk with no optional fields set. -/
def bareChunk : ContentChunk := ⟨none, none, none, none, none⟩

/-- C8: the claim fails on the code for the `search_result` context:
`_format_search_citation` defaults a missing year to the literal
`'n.d.'`, so the citation for a book with no `year` key contains
`"n.d."` rather than omitting the year. -/
theorem c8_counterexample :
    containsSub
      (generate_citation bareChunk deepLearningBook "search_result".data) ("n.d.".data) = true := by
  decide

/-- C8 (amended): for the `explanation` and `summary` contexts the
citation is independent of the `year` field (the year is omitted
entirely), and on the claim's example (title "Deep Learning", author
"Goodfellow", no year) those citations contain the title and author and
neither the literal "None" nor "n.d.".  For `search_result` the missing
year is rendered as "n.d." (see the counterexample). -/
theorem c8_citation_year_omission_amended (chunk : ContentChunk)
    (book : BookInfo) (y1 y2 : Option (List Char)) :
    generate_citation chunk { book with year := y1 } "explanation".data =
      generate_citation chunk { book with year := y2 } "explanation".data ∧
    generate_citation chunk { book with year := y1 } "summary".data =
      generate_citation chunk { book with year := y2 } "summary".data ∧
    containsSub
      (generate_citation bareChunk deepLearningBook "explanation".data) ("Deep Learning".data) = true ∧
    containsSub
      (generate_citation bareChunk deepLearningBook "explanation".data) ("Goodfellow".data) = true ∧
    containsSub
      (generate_citation bareChunk deepLearningBook "explanation".data) ("None".data) = false ∧
    containsSub
      (generate_citation bareChunk deepLearningBook "explanation".data) ("n.d.".data) = false ∧
    containsSub
      (generate_citation bareChunk deepLearningBook "summary".data) ("Deep Learning".data) = true ∧
    containsSub
      (generate_citation bareChunk deepLearningBook "summary".data) ("None".data) = false ∧
    containsSub
      (generate_citation bareChunk deepLearningBook "summary".data) ("n.d.".data) = false := by
  refine ⟨rfl, rfl, by decide, by decide, by decide, by decide, by decide, by decide,
    by decide⟩

/-- Key-presence test on a metadata dictionary (association list; an
updating write prepends its entries, so lookups see the newest value). -/
def hasKey (m : List (List Char × MVal)) (k : List Char) : Bool :=
  m.any (fun p => decide (p.1 = k))

/-- The metadata-building loop of `TextChunker.chunk_text`: for the `i`-th
of `total` chunks, the update written over a copy of the base metadata. -/
def chunkTextAux (total : Nat) (base : List (List Char × MVal)) :
    Nat → List (List Char) → List (List Char × List (List Char × MVal))
  | _, [] => []
  | i, c :: cs =>
    (c,
      [("chunk_id".data, MVal.s ("chunk_".data ++ (Nat.repr i).data ++ "_".data ++
          (Nat.repr c.length).data)),
        ("chunk_index".data, MVal.n i),
        ("total_chunks".data, MVal.n total),
        ("chunk_size".data, MVal.n c.length),
        ("is_first_chunk".data, MVal.b (i == 0)),
        ("is_last_chunk".data, MVal.b (i == total - 1))] ++ base) ::
      chunkTextAux total base (i + 1) cs

/-- `TextChunker.chunk_text`.  The langchain
`RecursiveCharacterTextSplitter.split_text` is an external collaborator,
passed in as `splitter`; `base` is the caller's metadata (empty list for
`None`). -/
def chunk_text (splitter : List Char → List (List Char))
    (base : List (List Char × MVal)) (text : List Char) :
    List (List Char × List (List Char × MVal)) :=
  if text = [] then []
  else chunkTextAux (splitter text).length base 0 (splitter text)

/-- The metadata `chunk_by_paragraphs` attaches to a flushed chunk. -/
def paraMeta (base : List (List Char × MVal)) (idx : Nat) :
    List (List Char × MVal) :=
  [("chunk_id".data, MVal.s ("para_chunk_".data ++ (Nat.repr idx).data)),
    ("chunk_index".data, MVal.n idx)] ++ base

/-- The accumulation loop of `TextChunker.chunk_by_paragraphs`: flush the
running buffer (stripped) when adding the next paragraph would exceed
`chunk_size` and the buffer is non-empty; append the final buffer when its
stripped form is non-empty. -/
def chunkByParasAux (csz : Nat) (base : List (List Char × MVal)) :
    List (List Char) → List Char → Nat → List (List Char × List (List Char × MVal))
  | [], current, idx =>
    if pyStrip current ≠ [] then [(pyStrip current, paraMeta base idx)] else []
  | p :: ps, current, idx =>
    if csz < current.length + p.length ∧ current ≠ [] then
      (pyStrip current, paraMeta base idx) ::
        chunkByParasAux csz base ps p (idx + 1)
    else
      chunkByParasAux csz base ps
        (if current ≠ [] then current ++ "\n\n".data ++ p else p) idx

/-- `TextChunker.chunk_by_paragraphs`.  The blank-line regex split is an
external collaborator (`re.split`), passed in as `paraSplit`. -/
def chunk_by_paragraphs (paraSplit : List Char → List (List Char)) (csz : Nat)
    (base : List (List Char × MVal)) (text : List Char) :
    List (List Char × List (List Char × MVal)) :=
  chunkByParasAux csz base (paraSplit text) [] 0

/-- The metadata of a small (un-split) section chunk in
`chunk_by_sections`. -/
def sectionMeta (base : List (List Char × MVal)) (i : Nat) (header : List Char) :
    List (List Char × MVal) :=
  [("chunk_id".data, MVal.s ("section_chunk_".data ++ (Nat.repr i).data)),
    ("chunk_index".data, MVal.n i),
    ("section_header".data, MVal.s header),
    ("section_chunk".data, MVal.b true)] ++ base

/-- The `chunk_meta.update(...)` applied to each fallback sub-chunk of an
oversized section. -/
def subChunkMeta (header : List Char) (j : Nat) (m : List (List Char × MVal)) :
    List (List Char × MVal) :=
  [("section_header".data, MVal.s header),
    ("sub_chunk_index".data, MVal.n j),
    ("section_chunk".data, MVal.b true)] ++ m

/-- The enumerated metadata update over the sub-chunks of an oversized
section. -/
def subChunksUpd (header : List Char) :
    Nat → List (List Char × List (List Char × MVal)) →
      List (List Char × List (List Char × MVal))
  | _, [] => []
  | j, (c, m) :: rest => (c, subChunkMeta header j m) :: subChunksUpd header (j + 1) rest

/-- The `for i, (header, section_content) in enumerate(zip(headers,
sections[1:]))` loop of `chunk_by_sections`. -/
def chunkBySectionsAux (splitter : List Char → List (List Char)) (csz : Nat)
    (base : List (List Char × MVal)) :
    Nat → List (List Char × List Char) →
      List (List Char × List (List Char × MVal))
  | _, [] => []
  | i, (header, content) :: rest =>
    (if csz < (header ++ "\n\n".data ++ content).length then
      subChunksUpd header 0 (chunk_text splitter base (header ++ "\n\n".data ++ content))
    else
      [(header ++ "\n\n".data ++ content, sectionMeta base i header)]) ++
      chunkBySectionsAux splitter csz base (i + 1) rest

/-- `TextChunker.chunk_by_sections`.  The regex split and findall over the
caller-supplied heading pattern are external collaborators; their results
are the parameters `sections` and `headers` (the code zips `headers` with
`sections[1:]`). -/
def chunk_by_sections (splitter : List Char → List (List Char)) (csz : Nat)
    (headers sections : List (List Char)) (base : List (List Char × MVal)) :
    List (List Char × List (List Char × MVal)) :=
  chunkBySectionsAux splitter csz base 0 (headers.zip (sections.drop 1))

theorem chunkTextAux_keys (total : Nat) (base : List (List Char × MVal)) :
    ∀ cs i p, p ∈ chunkTextAux total base i cs →
      hasKey p.2 "chunk_id".data = true ∧ hasKey p.2 "chunk_index".data = true ∧
      hasKey p.2 "total_chunks".data = true ∧
      hasKey p.2 "is_first_chunk".data = true ∧
      hasKey p.2 "is_last_chunk".data = true := by
  intro cs
  induction cs with
  | nil => intro i p h; cases h
  | cons c cs ih =>
    intro i p h
    rcases List.mem_cons.mp h with rfl | h
    · exact ⟨rfl, rfl, rfl, rfl, rfl⟩
    · exact ih (i + 1) p h

theorem chunk_text_keys (splitter : List Char → List (List Char))
    (base : List (List Char × MVal)) (text : List Char) :
    ∀ p ∈ chunk_text splitter base text,
      hasKey p.2 "chunk_id".data = true ∧ hasKey p.2 "chunk_index".data = true ∧
      hasKey p.2 "total_chunks".data = true ∧
      hasKey p.2 "is_first_chunk".data = true ∧
      hasKey p.2 "is_last_chunk".data = true := by
  intro p h
  unfold chunk_text at h
  split at h
  · cases h
  · exact chunkTextAux_keys (splitter text).length base (splitter text) 0 p h

theorem chunkByParasAux_keys (csz : Nat) :
    ∀ ps current idx q, q ∈ chunkByParasAux csz [] ps current idx →
      hasKey q.2 "chunk_id".data = true ∧ hasKey q.2 "chunk_index".data = true ∧
      hasKey q.2 "total_chunks".data = false ∧
      hasKey q.2 "is_first_chunk".data = false ∧
      hasKey q.2 "is_last_chunk".data = false := by
  intro ps
  induction ps with
  | nil =>
    intro current idx q h
    simp only [chunkByParasAux] at h
    split at h
    · rcases List.mem_singleton.mp h with rfl
      exact ⟨rfl, rfl, rfl, rfl, rfl⟩
    · cases h
  | cons p ps ih =>
    intro current idx q h
    simp only [chunkByParasAux] at h
    split at h
    · rcases List.mem_cons.mp h with rfl | h
      · exact ⟨rfl, rfl, rfl, rfl, rfl⟩
      · exact ih p (idx + 1) q h
    · exact ih _ idx q h

theorem subChunksUpd_keys (header : List Char) :
    ∀ pairs j r, r ∈ subChunksUpd header j pairs →
      (∀ p ∈ pairs, hasKey p.2 "chunk_id".data = true ∧
        hasKey p.2 "chunk_index".data = true) →
      hasKey r.2 "chunk_id".data = true ∧ hasKey r.2 "chunk_index".data = true := by
  intro pairs
  induction pairs with
  | nil => intro j r h _; cases h
  | cons p ps ih =>
    intro j r h hall
    cases p with
    | mk c m =>
      rcases List.mem_cons.mp h with rfl | h
      · exact hall (c, m) (List.mem_cons_self ..)
      · exact ih (j + 1) r h (fun p hp => hall p (List.mem_cons_of_mem _ hp))

theorem chunkBySectionsAux_keys (splitter : List Char → List (List Char)) (csz : Nat) :
    ∀ secs i r, r ∈ chunkBySectionsAux splitter csz [] i secs →
      hasKey r.2 "chunk_id".data = true ∧ hasKey r.2 "chunk_index".data = true := by
  intro secs
  induction secs with
  | nil => intro i r h; cases h
  | cons sec rest ih =>
    intro i r h
    cases sec with
    | mk header content =>
      simp only [chunkBySectionsAux] at h
      rcases List.mem_append.mp h with h | h
      · split at h
        · exact subChunksUpd_keys header _ 0 r h
            (fun p hp => ⟨(chunk_text_keys splitter [] _ p hp).1,
              (chunk_text_keys splitter [] _ p hp).2.1⟩)
        · rcases List.mem_singleton.mp h with rfl
          exact ⟨rfl, rfl⟩
      · exact ih (i + 1) r h

/-- C9: the claim fails on the code.  `chunk_by_paragraphs` on the
non-empty text `"hello"` (one paragraph; the blank-line split returns the
whole text) produces one chunk whose metadata carries `chunk_id` and
`chunk_index` but none of `total_chunks`, `is_first_chunk`,
`is_last_chunk`. -/
theorem c9_counterexample :
    (chunk_by_paragraphs (fun t => [t]) 1000 [] "hello".data).map
      (fun q => (hasKey q.2 "chunk_id".data, hasKey q.2 "chunk_index".data,
        hasKey q.2 "total_chunks".data, hasKey q.2 "is_first_chunk".data,
        hasKey q.2 "is_last_chunk".data)) =
      [(true, true, false, false, false)] := by
  decide

/-- C9 (amended): `chunk_text` metadata carries all five keys `chunk_id`,
`chunk_index`, `total_chunks`, `is_first_chunk`, `is_last_chunk` for every
splitter output; but `chunk_by_paragraphs` (with no base metadata) carries
only `chunk_id` and `chunk_index` — never `total_chunks`,
`is_first_chunk` or `is_last_chunk` — and `chunk_by_sections` guarantees
only `chunk_id` and `chunk_index`. -/
theorem c9_chunk_metadata_amended (splitter paraSplit : List Char → List (List Char))
    (csz : Nat) (base : List (List Char × MVal)) (text : List Char)
    (headers sections : List (List Char)) :
    (∀ p ∈ chunk_text splitter base text,
      hasKey p.2 "chunk_id".data = true ∧ hasKey p.2 "chunk_index".data = true ∧
      hasKey p.2 "total_chunks".data = true ∧
      hasKey p.2 "is_first_chunk".data = true ∧
      hasKey p.2 "is_last_chunk".data = true) ∧
    (∀ q ∈ chunk_by_paragraphs paraSplit csz [] text,
      hasKey q.2 "chunk_id".data = true ∧ hasKey q.2 "chunk_index".data = true ∧
      hasKey q.2 "total_chunks".data = false ∧
      hasKey q.2 "is_first_chunk".data = false ∧
      hasKey q.2 "is_last_chunk".data = false) ∧
    (∀ r ∈ chunk_by_sections splitter csz headers sections [],
      hasKey r.2 "chunk_id".data = true ∧ hasKey r.2 "chunk_index".data = true) :=
  ⟨chunk_text_keys splitter base text,
   fun q hq => chunkByParasAux_keys csz (paraSplit text) [] 0 q hq,
   fun r hr => chunkBySectionsAux_keys splitter csz (headers.zip (sections.drop 1)) 0 r hr⟩

/-- Witness for the amended C9 at concrete inputs. -/
theorem c9_chunk_metadata_amended_witness :
    hasKey (("hello".data,
        [("chunk_id".data, MVal.s "chunk_0_5".data),
          ("chunk_index".data, MVal.n 0),
          ("total_chunks".data, MVal.n 1),
          ("chunk_size".data, MVal.n 5),
          ("is_first_chunk".data, MVal.b true),
          ("is_last_chunk".data, MVal.b true)]) :
      List Char × List (List Char × MVal)).2 "total_chunks".data = true ∧
    hasKey (("hello".data, paraMeta [] 0) :
      List Char × List (List Char × MVal)).2 "total_chunks".data = false :=
  ⟨((c9_chunk_metadata_amended (fun t => [t]) (fun t => [t]) 1000 [] "hello".data
      [] []).1 _ (by decide)).2.2.1,
   ((c9_chunk_metadata_amended (fun t => [t]) (fun t => [t]) 1000 [] "hello".data
      [] []).2.1 _ (by decide)).2.2.1⟩
